import Mathlib

/-!
Formal model of the geometric core of the jobcalc pipe-drawing program
(jclib/helper.py, jclib/flange.py, jclib/pipe.py, jclib/pipebend.py,
jclib/pipestraight.py, cgi/jc.py), together with theorems settling the
frozen claims about it.

Modelling conventions:
* Python floats are modelled as real numbers (`ℝ`); `math.cos`/`sin`/`tan`/
  `atan`/`radians` become `Real.cos` etc.
* `int(x)` (truncation towards zero) is `pyInt`, Python 3 `round` (banker's
  rounding, half to even) is `pyRound`.
* A Python expression that can raise `ZeroDivisionError` is modelled with
  `Except`; a dictionary lookup that can raise `KeyError` (the flange
  catalogue) returns `Option`, and constructors that perform such a lookup
  propagate the `Option` (construction yields no object at all on failure).
* Drawing side effects on the cairo context are dropped; functions that
  compute geometry (point lists, rib segment endpoints, scale factors)
  are modelled as the pure values they compute.  Text-metric measurements
  (`get_largest_text_width` / `get_largest_text_height`), which come from
  the live canvas, are passed in as real-valued parameters.
-/

noncomputable section

namespace JobCalc

open Real

/-- `helper.Point`: a cartesian coordinate. -/
@[ext] structure Point where
  x : ℝ
  y : ℝ

/-- The default value `Point(0, 0)` of the `p` argument of `helper.ptoc`. -/
def origin : Point := ⟨0, 0⟩

/-- `helper.ptoc(theta, r, p)`:
`Point(p.x + cos(theta) * r, p.y - sin(theta) * r)` (inverted y-axis). -/
def ptoc (theta r : ℝ) (p : Point) : Point :=
  ⟨p.x + cos theta * r, p.y - sin theta * r⟩

/-- Distance of a point from the origin, `hypot(x, y)`. -/
def Point.dist0 (p : Point) : ℝ := Real.sqrt (p.x ^ 2 + p.y ^ 2)

/-- Midpoint of the segment joining two points. -/
def Point.midpt (p q : Point) : Point := ⟨(p.x + q.x) / 2, (p.y + q.y) / 2⟩

/-- `math.radians`: degrees to radians, `x * pi / 180`. -/
def radians (x : ℝ) : ℝ := x * π / 180

/-- Python `int(x)` on a float: truncation towards zero. -/
def pyInt (x : ℝ) : ℤ := if 0 ≤ x then ⌊x⌋ else ⌈x⌉

/-- Python 3 `round(x)`: round half to even (banker's rounding). -/
def pyRound (x : ℝ) : ℤ :=
  if Int.fract x = 1 / 2 then 2 * round (x / 2) else round x

/-- Python float division, which raises `ZeroDivisionError` on a zero
divisor. -/
def pyDiv (a b : ℝ) : Except Unit ℝ :=
  if b = 0 then Except.error () else Except.ok (a / b)

/-- `math.atan2(y, x)`: the argument of the complex number `x + y*I`,
in `(-π, π]`. -/
def atan2 (y x : ℝ) : ℝ := Complex.arg ⟨x, y⟩

/-- `p` lies on the open ray from the drawing origin at polar angle
`alpha` (in the inverted-y polar convention of `ptoc`). -/
def OnRay (alpha : ℝ) (p : Point) : Prop :=
  ∃ r : ℝ, 0 < r ∧ p = ptoc alpha r origin

/-- `p`, `q` and the drawing origin `(0,0)` are collinear. -/
def collin0 (p q : Point) : Prop := p.x * q.y - p.y * q.x = 0

/-- The Python slice `l[-2:0:-1]`: elements at indices
`len-2, len-3, …, 1`, i.e. the interior of the list, reversed. -/
def sliceRevInterior {α : Type} (l : List α) : List α :=
  ((l.drop 1).dropLast).reverse

/-- One row of the `Flange.dims` catalogue: hole diameter, flange
diameter, flange thickness, bolt circle diameter, bolt hole diameter,
number of bolts, raised face diameter, raised face height. -/
structure FlangeDims where
  hole_diameter : ℝ
  flange_diameter : ℝ
  flange_thickness : ℝ
  bolt_circle_diameter : ℝ
  bolt_hole_diameter : ℝ
  num_bolts : ℕ
  raised_face_diameter : ℝ
  raised_face_height : ℝ

/-- The fixed `Flange.dims` catalogue dictionary together with the lookup
performed by `Flange.__init__`; a designation outside the table raises
`KeyError`, modelled as `none`. -/
def Flange.dims (name : String) : Option FlangeDims :=
  if name = "100PN16" then some ⟨100, 220, 20, 180, 18, 8, 158, 2⟩
  else if name = "125PN16" then some ⟨125, 250, 22, 210, 18, 8, 188, 2⟩
  else if name = "150PN16" then some ⟨150, 285, 22, 240, 22, 8, 212, 2⟩
  else if name = "200PN16" then some ⟨200, 340, 24, 295, 22, 12, 268, 2⟩
  else if name = "250PN16" then some ⟨250, 405, 26, 355, 26, 12, 320, 2⟩
  else if name = "300PN16" then some ⟨300, 460, 28, 410, 26, 12, 378, 2⟩
  else if name = "400PN16" then some ⟨400, 580, 32, 525, 30, 16, 490, 2⟩
  else none

/-- Keys of the `Pipe.diameters` / `Pipe.p_rad` dictionaries. -/
inductive DKey | co | ci | lo | li | fi | fo

/-- Keys of the `PipeBend.radii["outer"]` / `radii["inner"]` dictionaries. -/
inductive RKey | nom | co | ci | lo | li | fo

/-- The four pipe layer components for which `pc_pts` point lists are
built ("co", "ci", "lo", "li"). -/
inductive Comp | co | ci | lo | li

/-- The pipe-layer key viewed as a radii-dictionary key. -/
def Comp.rkey : Comp → RKey
  | .co => .co
  | .ci => .ci
  | .lo => .lo
  | .li => .li

/-- The state stored by `Pipe.__init__` that the claims depend on:
the flange row and the four layer diameters. -/
structure Pipe where
  flange : FlangeDims
  casingod : ℝ
  casingid : ℝ
  liningod : ℝ
  liningid : ℝ

/-- `Pipe.__init__`: looks the flange up in the catalogue (a `KeyError`
aborts construction before any geometry is stored) and records the layer
diameters. -/
def Pipe.make (casingod casingid liningod liningid : ℝ) (flange : String) :
    Option Pipe :=
  (Flange.dims flange).map fun f => ⟨f, casingod, casingid, liningod, liningid⟩

/-- The `Pipe.diameters` dictionary. -/
def Pipe.diameters (p : Pipe) : DKey → ℝ
  | .co => p.casingod
  | .ci => p.casingid
  | .lo => p.liningod
  | .li => p.liningid
  | .fi => p.flange.hole_diameter
  | .fo => p.flange.flange_diameter

/-- The `Pipe.p_rad` dictionary: each diameter halved. -/
def Pipe.p_rad (p : Pipe) : DKey → ℝ
  | .co => p.casingod / 2
  | .ci => p.casingid / 2
  | .lo => p.liningod / 2
  | .li => p.liningid / 2
  | .fi => p.flange.hole_diameter / 2
  | .fo => p.flange.flange_diameter / 2

/-- The state stored by `PipeBend.__init__` that the claims depend on. -/
structure PipeBend extends Pipe where
  nomrad : ℝ
  bendangle : ℝ
  segangle : ℝ
  ctype : String
  exdimdrg : Bool
  exdimbox : Bool

/-- `PipeBend.__init__` (argument order as in the source); the flange
lookup performed by the `Pipe.__init__` superclass call fails first on an
unknown designation, so no bend geometry is ever stored in that case. -/
def PipeBend.make (nomrad casingod casingid liningod liningid bendangle segangle : ℝ)
    (ctype : String) (flange : String) (exdimdrg exdimbox : Bool) :
    Option PipeBend :=
  (Pipe.make casingod casingid liningod liningid flange).map fun p =>
    { toPipe := p, nomrad := nomrad, bendangle := bendangle, segangle := segangle,
      ctype := ctype, exdimdrg := exdimdrg, exdimbox := exdimbox }

/-- `self.bend_arc = radians(bendangle)`. -/
def PipeBend.bend_arc (b : PipeBend) : ℝ := radians b.bendangle

/-- `self.segment_angle = radians(segangle)`. -/
def PipeBend.segment_angle (b : PipeBend) : ℝ := radians b.segangle

/-- `self.num_segments = int(self.bend_arc / self.segment_angle)`. -/
def PipeBend.num_segments (b : PipeBend) : ℤ :=
  pyInt (b.bend_arc / b.segment_angle)

/-- The `outer_radii` dictionary of `PipeBend.__init__`
(`fod = self.flange.flange_diameter`). -/
def PipeBend.outer_radii (b : PipeBend) : RKey → ℝ
  | .nom => b.nomrad
  | .co => b.nomrad + b.casingod / 2
  | .ci => b.nomrad + b.casingid / 2
  | .lo => b.nomrad + b.liningod / 2
  | .li => b.nomrad + b.liningid / 2
  | .fo => b.nomrad + b.flange.flange_diameter / 2

/-- The `inner_radii` dictionary of `PipeBend.__init__`. -/
def PipeBend.inner_radii (b : PipeBend) : RKey → ℝ
  | .nom => b.nomrad
  | .co => b.nomrad - b.casingod / 2
  | .ci => b.nomrad - b.casingid / 2
  | .lo => b.nomrad - b.liningod / 2
  | .li => b.nomrad - b.liningid / 2
  | .fo => b.nomrad - b.flange.flange_diameter / 2

/-- `self.radii["nom"] = nomrad`. -/
def PipeBend.radii_nom (b : PipeBend) : ℝ := b.nomrad

/-- `PipeBend.get_segment_points(rad)`: one point at angle `0` and radius
`rad`, one point per segment at angle `segment_angle * (n + 0.5)`
(`n = 0 … num_segments - 1`) and radius `erad = rad / cos(segment_angle / 2)`,
and one point at angle `bend_arc` and radius `rad` (the local variables
`s_ang`, `b_arc`, `erad` of the source are inlined). -/
def PipeBend.get_segment_points (b : PipeBend) (rad : ℝ) : List Point :=
  [ptoc 0 rad origin]
    ++ (List.range b.num_segments.toNat).map
        (fun (n : ℕ) => ptoc (b.segment_angle * ((n : ℝ) + 0.5))
          (rad / cos (b.segment_angle / 2)) origin)
    ++ [ptoc b.bend_arc rad origin]

/-- `pc_pts_out[k] = self.get_segment_points(self.radii["outer"][k])`. -/
def PipeBend.pc_pts_out (b : PipeBend) (k : Comp) : List Point :=
  b.get_segment_points (b.outer_radii k.rkey)

/-- `pc_pts_in[k] = self.get_segment_points(self.radii["inner"][k])`
followed by `pc_pts_in[k].reverse()`. -/
def PipeBend.pc_pts_in (b : PipeBend) (k : Comp) : List Point :=
  (b.get_segment_points (b.inner_radii k.rkey)).reverse

/-- `pc_pts_ctr = self.get_segment_points(self.radii["nom"])`. -/
def PipeBend.pc_pts_ctr (b : PipeBend) : List Point :=
  b.get_segment_points b.radii_nom

/-- Every point stored in the `pc_pts` dictionaries of a bend (all four
layers, outer and inner boundaries, plus the centerline). -/
def PipeBend.allSegPoints (b : PipeBend) : List Point :=
  b.pc_pts_out .co ++ b.pc_pts_out .ci ++ b.pc_pts_out .lo ++ b.pc_pts_out .li
    ++ b.pc_pts_in .co ++ b.pc_pts_in .ci ++ b.pc_pts_in .lo ++ b.pc_pts_in .li
    ++ b.pc_pts_ctr

/-- `PipeBend.draw_ribs`: the pairs of endpoints of the rib lines drawn,
`zip(pts_out[1:-1], pts_in[-2:0:-1])`. -/
def PipeBend.draw_ribs_pairs (b : PipeBend) (k : Comp) : List (Point × Point) :=
  List.zip (((b.pc_pts_out k).drop 1).dropLast) (sliceRevInterior (b.pc_pts_in k))

/-- `PipeBend.set_scale`: the scale factor stored in `self.scale`.
`ddm` and `rdm` are the text metrics obtained from the live context for
the segment-dimension labels and the radius-dimension labels respectively
(`ddm` only feeds `dos_dim_line_length`, not the scale).  Source locals:
`bfr = self.radii["outer"]["fo"]`, `cri = self.radii["inner"]["co"]`,
`cro = self.radii["outer"]["co"]`, `flr = self.p_rad["fo"]`,
`rdm * 4 = self.dim_line_length * 4`, `rad_w = bfr`,
`ang_w = rad_w - cos(b_arc) * cri`, `dm_w = cos(pi/2 - b_arc) * rdm4`,
`rad_s = page_w / bfr`, `ang_s = (page_w - dm_w) / ang_w`,
`rad_h = sin(b_arc) * bfr + flr`, `ang_h = sin(b_arc) * cro + flr`,
`dm_h = sin(pi/2 - b_arc) * rdm4`,
`scale = min(min(rad_s, ang_s), min(page_h / rad_h, (page_h - dm_h) / ang_h))`. -/
def PipeBend.set_scale (b : PipeBend) (ddm rdm page_w page_h : ℝ) : ℝ :=
  min
    (min (page_w / b.outer_radii RKey.fo)
      ((page_w - cos (π / 2 - b.bend_arc) * (rdm * 4)) /
        (b.outer_radii RKey.fo - cos b.bend_arc * b.inner_radii RKey.co)))
    (min (page_h / (sin b.bend_arc * b.outer_radii RKey.fo + b.toPipe.p_rad DKey.fo))
      ((page_h - sin (π / 2 - b.bend_arc) * (rdm * 4)) /
        (sin b.bend_arc * b.outer_radii RKey.co + b.toPipe.p_rad DKey.fo)))

/-- The state stored by `PipeStraight.__init__` that the claims depend on. -/
structure PipeStraight extends Pipe where
  length : ℝ

/-- `PipeStraight.__init__` (argument order as in the source). -/
def PipeStraight.make (length casingod casingid liningod liningid : ℝ)
    (flange : String) : Option PipeStraight :=
  (Pipe.make casingod casingid liningod liningid flange).map fun p =>
    { toPipe := p, length := length }

/-- `self.len_dim_line_length_offset_m = 1`. -/
def PipeStraight.len_dim_line_length_offset_m : ℝ := 1

/-- `self.len_dim_line_length_width_m = 2`. -/
def PipeStraight.len_dim_line_length_width_m : ℝ := 2

/-- `PipeStraight.set_scale`: the scale factor stored in `self.scale`.
`rdm` is the text-metric height of the largest layer-diameter label,
`ldm` the text-metric width of the length label.  Source locals:
`fld = self.diameters["fo"]`, `flr = self.p_rad["fo"]`,
`rdm4 = self.dim_line_length * 4`,
`ldm3 = ldm * (offset_m + width_m)`,
`x_scale = (page_w - ldm3) / fld`,
`y_scale = (page_h - rdm4) / (pipelen + flr)`, `scale = min(x, y)`. -/
def PipeStraight.set_scale (s : PipeStraight) (rdm ldm page_w page_h : ℝ) : ℝ :=
  min
    ((page_w - ldm * (PipeStraight.len_dim_line_length_offset_m +
        PipeStraight.len_dim_line_length_width_m)) / s.toPipe.diameters DKey.fo)
    ((page_h - rdm * 4) / (s.length + s.toPipe.p_rad DKey.fo))

/-- The arrowhead angle computed by `helper.draw_dim_line`:
`atan((pe.y - ps.y) / (ps.x - pe.x))` guarded by a
`try/except ZeroDivisionError` that falls back to `pi/2` or `3*pi/2`
according to the endpoint y-order. -/
def draw_dim_line_angle (ps pe : Point) : ℝ :=
  match pyDiv (pe.y - ps.y) (ps.x - pe.x) with
  | Except.ok q => arctan q
  | Except.error _ => if ps.y < pe.y then π / 2 else π * 3 / 2

/-- The seven standard flange designations enumerated by the catalogue
(and by the validation list in `cgi/jc.py`). -/
def flangeNames : List String :=
  ["100PN16", "125PN16", "150PN16", "200PN16", "250PN16", "300PN16", "400PN16"]

/-- The 200PN16 catalogue row. -/
def f200 : FlangeDims := ⟨200, 340, 24, 295, 22, 12, 268, 2⟩

/-- A concrete bend with an even segment count (`90 / 45 = 2`). -/
def bend45 : PipeBend :=
  { flange := f200, casingod := 220, casingid := 200, liningod := 180,
    liningid := 160, nomrad := 500, bendangle := 90, segangle := 45,
    ctype := "segmented", exdimdrg := false, exdimbox := false }

/-- The scenario bend of the spec (`90 / 22.5 = 4` segments). -/
def bend225 : PipeBend :=
  { flange := f200, casingod := 220, casingid := 200, liningod := 180,
    liningid := 160, nomrad := 500, bendangle := 90, segangle := 22.5,
    ctype := "segmented", exdimdrg := false, exdimbox := false }

/-- A bend whose segment angle passes the `round(b*100) % round(s*100)`
divisibility check without dividing the bend angle exactly. -/
def bend1001 : PipeBend :=
  { flange := f200, casingod := 220, casingid := 200, liningod := 180,
    liningid := 160, nomrad := 500, bendangle := 90, segangle := 1.001,
    ctype := "segmented", exdimdrg := false, exdimbox := false }

/-- The scenario straight of the spec. -/
def straight3000 : PipeStraight :=
  { flange := f200, casingod := 220, casingid := 200, liningod := 180,
    liningid := 160, length := 3000 }

/-!  ## Helper lemmas  -/

/-- `radians` is multiplication by the nonzero constant `π / 180`, so
ratios of radian values equal ratios of the degree values. -/
theorem radians_div (x y : ℝ) (hy : y ≠ 0) : radians x / radians y = x / y := by
  have h180 : (180 : ℝ) ≠ 0 := by norm_num
  unfold radians
  field_simp
  ring

/-- When the segment angle divides the bend angle exactly (`b = n * s`),
the stored segment count is exactly `n`. -/
theorem PipeBend.num_segments_eq (b : PipeBend) (n : ℕ) (hs : b.segangle ≠ 0)
    (hn : b.bendangle = n * b.segangle) : b.num_segments = n := by
  unfold PipeBend.num_segments PipeBend.bend_arc PipeBend.segment_angle
  rw [radians_div _ _ hs, hn, mul_div_assoc, div_self hs, mul_one]
  unfold pyInt
  rw [if_pos (Nat.cast_nonneg n)]
  exact_mod_cast Int.floor_natCast n

/-- `get_segment_points` in cons/append shape, with the stored segment
count as the number of interior points. -/
theorem PipeBend.gsp_shape (b : PipeBend) (rad : ℝ) :
    b.get_segment_points rad =
      ptoc 0 rad origin ::
        ((List.range b.num_segments.toNat).map
          (fun (i : ℕ) => ptoc (b.segment_angle * ((i : ℝ) + 0.5))
            (rad / cos (b.segment_angle / 2)) origin)
        ++ [ptoc b.bend_arc rad origin]) := by
  unfold PipeBend.get_segment_points
  simp

/-- `get_segment_points` in cons/append shape under exact divisibility. -/
theorem PipeBend.gsp_eq (b : PipeBend) (n : ℕ) (rad : ℝ) (hs : b.segangle ≠ 0)
    (hn : b.bendangle = n * b.segangle) :
    b.get_segment_points rad =
      ptoc 0 rad origin ::
        ((List.range n).map
          (fun (i : ℕ) => ptoc (b.segment_angle * ((i : ℝ) + 0.5))
            (rad / cos (b.segment_angle / 2)) origin)
        ++ [ptoc b.bend_arc rad origin]) := by
  rw [PipeBend.gsp_shape, PipeBend.num_segments_eq b n hs hn, Int.toNat_natCast]

/-- A point produced by `ptoc` at the origin lies at distance `|r|` = `r`
from the origin. -/
theorem dist0_ptoc (theta r : ℝ) (hr : 0 ≤ r) : (ptoc theta r origin).dist0 = r := by
  unfold ptoc origin Point.dist0
  show Real.sqrt ((0 + cos theta * r) ^ 2 + (0 - sin theta * r) ^ 2) = r
  have hs := sin_sq_add_cos_sq theta
  have h : (0 + cos theta * r) ^ 2 + (0 - sin theta * r) ^ 2 = r ^ 2 := by
    linear_combination r ^ 2 * hs
  rw [h, Real.sqrt_sq hr]

/-- A necessary condition for a `ptoc`-point to lie on the ray at angle
`alpha`: the cross product with the ray direction vanishes. -/
theorem onRay_sin_eq_zero {alpha theta r : ℝ}
    (h : OnRay alpha (ptoc theta r origin)) : r * sin (theta - alpha) = 0 := by
  obtain ⟨t, _, heq⟩ := h
  unfold ptoc origin at heq
  have hx : cos theta * r = cos alpha * t := by
    have := congrArg Point.x heq
    simpa using this
  have hy : sin theta * r = sin alpha * t := by
    have h0 := congrArg Point.y heq
    simp only at h0
    linarith [h0]
  rw [Real.sin_sub]
  linear_combination cos alpha * hy - sin alpha * hx

/-- The interior of a cons/concat list. -/
theorem drop_one_dropLast_eq {α : Type} (a z : α) (l : List α) :
    ((a :: (l ++ [z])).drop 1).dropLast = l := by
  simp

/-- The Python slice `l[-2:0:-1]` applied to a reversed cons/concat list
recovers the interior of the unreversed list in its original order. -/
theorem sliceRevInterior_reverse {α : Type} (a z : α) (l : List α) :
    sliceRevInterior ((a :: (l ++ [z])).reverse) = l := by
  unfold sliceRevInterior
  rw [List.reverse_cons, List.reverse_append, List.reverse_singleton]
  simp

/-- The rib-line endpoint pairs of `draw_ribs`, in closed form: one pair
per stored segment, pairing the `i`-th interior vertex of the outer
boundary with the `i`-th interior vertex of the (reversed) inner
boundary. -/
theorem PipeBend.draw_ribs_pairs_eq (b : PipeBend) (k : Comp) :
    b.draw_ribs_pairs k =
      (List.range b.num_segments.toNat).map (fun (i : ℕ) =>
        (ptoc (b.segment_angle * ((i : ℝ) + 0.5))
            (b.outer_radii k.rkey / cos (b.segment_angle / 2)) origin,
         ptoc (b.segment_angle * ((i : ℝ) + 0.5))
            (b.inner_radii k.rkey / cos (b.segment_angle / 2)) origin)) := by
  unfold PipeBend.draw_ribs_pairs PipeBend.pc_pts_out PipeBend.pc_pts_in
  rw [PipeBend.gsp_shape, PipeBend.gsp_shape]
  rw [drop_one_dropLast_eq, sliceRevInterior_reverse]
  exact List.zip_map' _ _ _

/-- For a segment angle in `(0°, 90°]`, the cosine of half the segment
angle (in radians) is positive. -/
theorem cos_half_seg_pos (b : PipeBend) (hs : 0 < b.segangle)
    (hs90 : b.segangle ≤ 90) : 0 < cos (b.segment_angle / 2) := by
  unfold PipeBend.segment_angle radians
  have hπ := pi_pos
  refine cos_pos_of_mem_Ioo (Set.mem_Ioo.mpr ⟨?_, ?_⟩)
  · nlinarith [mul_pos hs hπ]
  · nlinarith [mul_pos (show (0:ℝ) < 180 - b.segangle by linarith) hπ]

/-- Under exact divisibility `bendangle = n * segangle`, the bend arc in
radians is `n` times the segment angle in radians. -/
theorem bend_arc_eq_mul (b : PipeBend) (n : ℕ)
    (hn : b.bendangle = n * b.segangle) :
    b.bend_arc = (n : ℝ) * b.segment_angle := by
  unfold PipeBend.bend_arc PipeBend.segment_angle radians
  rw [hn]
  ring

/-!  ## Claim theorems  -/

/-- C7: for a perfectly vertical dimension line (`Δx = 0`) the division
in `draw_dim_line`'s angle computation raises `ZeroDivisionError`, the
handler completes normally, and the arrowhead angle is `π/2` when the
start point's y is below the end point's y and `3π/2` otherwise. -/
theorem vertical_dim_line_angle (ps pe : Point) (h : ps.x = pe.x) :
    pyDiv (pe.y - ps.y) (ps.x - pe.x) = Except.error () ∧
    (ps.y < pe.y → draw_dim_line_angle ps pe = π / 2) ∧
    (¬ ps.y < pe.y → draw_dim_line_angle ps pe = π * 3 / 2) := by
  have hz : ps.x - pe.x = 0 := by rw [h]; ring
  refine ⟨by simp [pyDiv, hz], ?_, ?_⟩
  · intro hlt
    simp [draw_dim_line_angle, pyDiv, hz, hlt]
  · intro hlt
    simp [draw_dim_line_angle, pyDiv, hz, hlt]

/-- Witness for C7 at the concrete vertical line from `(0,0)` to `(0,5)`. -/
theorem vertical_dim_line_angle_witness :
    (Point.mk 0 0).x = (Point.mk 0 5).x ∧
    (pyDiv ((Point.mk 0 5).y - (Point.mk 0 0).y)
        ((Point.mk 0 0).x - (Point.mk 0 5).x) = Except.error () ∧
      ((Point.mk 0 0).y < (Point.mk 0 5).y →
        draw_dim_line_angle (Point.mk 0 0) (Point.mk 0 5) = π / 2) ∧
      (¬ (Point.mk 0 0).y < (Point.mk 0 5).y →
        draw_dim_line_angle (Point.mk 0 0) (Point.mk 0 5) = π * 3 / 2)) :=
  ⟨rfl, vertical_dim_line_angle (Point.mk 0 0) (Point.mk 0 5) rfl⟩

/-- C8: the flange catalogue lookup succeeds exactly on the seven
enumerated designations, returning each designation's fixed row, and on
any other designation it fails and every pipe-model constructor that
performs it produces no model at all. -/
theorem flange_lookup_catalogue :
    Flange.dims "100PN16" = some ⟨100, 220, 20, 180, 18, 8, 158, 2⟩ ∧
    Flange.dims "125PN16" = some ⟨125, 250, 22, 210, 18, 8, 188, 2⟩ ∧
    Flange.dims "150PN16" = some ⟨150, 285, 22, 240, 22, 8, 212, 2⟩ ∧
    Flange.dims "200PN16" = some ⟨200, 340, 24, 295, 22, 12, 268, 2⟩ ∧
    Flange.dims "250PN16" = some ⟨250, 405, 26, 355, 26, 12, 320, 2⟩ ∧
    Flange.dims "300PN16" = some ⟨300, 460, 28, 410, 26, 12, 378, 2⟩ ∧
    Flange.dims "400PN16" = some ⟨400, 580, 32, 525, 30, 16, 490, 2⟩ ∧
    ∀ name : String, name ∉ flangeNames →
      Flange.dims name = none ∧
      (∀ cod cid lod lid : ℝ, Pipe.make cod cid lod lid name = none) ∧
      (∀ nr cod cid lod lid ba sa : ℝ, ∀ ct : String, ∀ e1 e2 : Bool,
        PipeBend.make nr cod cid lod lid ba sa ct name e1 e2 = none) ∧
      (∀ len cod cid lod lid : ℝ,
        PipeStraight.make len cod cid lod lid name = none) := by
  refine ⟨rfl, rfl, rfl, rfl, rfl, rfl, rfl, ?_⟩
  intro name hname
  have hd : Flange.dims name = none := by
    unfold Flange.dims
    split_ifs with h1 h2 h3 h4 h5 h6 h7
    · exact absurd (by simp [flangeNames, h1]) hname
    · exact absurd (by simp [flangeNames, h2]) hname
    · exact absurd (by simp [flangeNames, h3]) hname
    · exact absurd (by simp [flangeNames, h4]) hname
    · exact absurd (by simp [flangeNames, h5]) hname
    · exact absurd (by simp [flangeNames, h6]) hname
    · exact absurd (by simp [flangeNames, h7]) hname
    · rfl
  refine ⟨hd, ?_, ?_, ?_⟩
  · intro cod cid lod lid
    simp [Pipe.make, hd]
  · intro nr cod cid lod lid ba sa ct e1 e2
    simp [PipeBend.make, Pipe.make, hd]
  · intro len cod cid lod lid
    simp [PipeStraight.make, Pipe.make, hd]

/-- Witness for C8 at the invalid designation `"999PN16"`. -/
theorem flange_lookup_catalogue_witness :
    "999PN16" ∉ flangeNames ∧
    Flange.dims "999PN16" = none ∧
    Pipe.make 220 200 180 160 "999PN16" = none ∧
    PipeBend.make 500 220 200 180 160 90 22.5 "segmented" "999PN16"
      false false = none ∧
    PipeStraight.make 3000 220 200 180 160 "999PN16" = none := by
  have h : "999PN16" ∉ flangeNames := by decide
  obtain ⟨_, _, _, _, _, _, _, hrest⟩ := flange_lookup_catalogue
  obtain ⟨hd, hp, hb, hs⟩ := hrest "999PN16" h
  exact ⟨h, hd, hp 220 200 180 160,
    hb 500 220 200 180 160 90 22.5 "segmented" false false,
    hs 3000 220 200 180 160⟩

/-- C10: for every bend and every layer, `draw_ribs` emits exactly
`num_segments` rib lines; the `i`-th rib joins the `i`-th internal vertex
of the layer's outer boundary to the `i`-th internal vertex of its inner
boundary (whose stored list is reversed, the slice `pts_in[-2:0:-1]`
undoing the reversal), both at polar angle `segment_angle * (i + 0.5)`,
so every rib is collinear with the bend origin. -/
theorem draw_ribs_structure (b : PipeBend) (k : Comp) :
    (b.draw_ribs_pairs k).length = b.num_segments.toNat ∧
    (∀ i : ℕ, i < b.num_segments.toNat →
      (b.draw_ribs_pairs k)[i]? =
        some (ptoc (b.segment_angle * ((i : ℝ) + 0.5))
                (b.outer_radii k.rkey / cos (b.segment_angle / 2)) origin,
              ptoc (b.segment_angle * ((i : ℝ) + 0.5))
                (b.inner_radii k.rkey / cos (b.segment_angle / 2)) origin)) ∧
    ∀ pq ∈ b.draw_ribs_pairs k, collin0 pq.1 pq.2 := by
  rw [PipeBend.draw_ribs_pairs_eq]
  refine ⟨by rw [List.length_map, List.length_range], ?_, ?_⟩
  · intro i hi
    rw [List.getElem?_map, List.getElem?_range hi]
    rfl
  · intro pq hpq
    obtain ⟨i, _, rfl⟩ := List.mem_map.mp hpq
    unfold collin0 ptoc origin
    ring

/-- C1: for a bend with segment count `n = bendangle / segangle` and a
layer radius `R > 0`, `get_segment_points R` is exactly the ordered list
of `n + 2` points whose first point is at polar angle `0` and radius
exactly `R`, whose last point is at polar angle `bend_arc` and radius
exactly `R`, and whose `i`-th internal point (`i = 0 … n-1`) is at polar
angle `segment_angle * (i + 0.5)` and radius `R / cos(segment_angle/2)`;
consequently both endpoints lie at distance exactly `R` from the origin
and every internal vertex at distance `R / cos(segment_angle/2)`. -/
theorem get_segment_points_structure (b : PipeBend) (n : ℕ) (R : ℝ)
    (hs : 0 < b.segangle) (hsb : b.segangle ≤ b.bendangle)
    (h90 : b.bendangle ≤ 90) (hn : b.bendangle = n * b.segangle)
    (hR : 0 < R) :
    b.get_segment_points R =
      ptoc 0 R origin ::
        ((List.range n).map (fun (i : ℕ) =>
          ptoc (b.segment_angle * ((i : ℝ) + 0.5))
            (R / cos (b.segment_angle / 2)) origin)
        ++ [ptoc b.bend_arc R origin]) ∧
    (b.get_segment_points R).length = n + 2 ∧
    (ptoc 0 R origin).dist0 = R ∧
    (ptoc b.bend_arc R origin).dist0 = R ∧
    ∀ i : ℕ, (ptoc (b.segment_angle * ((i : ℝ) + 0.5))
        (R / cos (b.segment_angle / 2)) origin).dist0 =
      R / cos (b.segment_angle / 2) := by
  have hsne : b.segangle ≠ 0 := ne_of_gt hs
  have hlist := PipeBend.gsp_eq b n R hsne hn
  have hcos := cos_half_seg_pos b hs (hsb.trans h90)
  refine ⟨hlist, ?_, dist0_ptoc _ _ hR.le, dist0_ptoc _ _ hR.le, ?_⟩
  · rw [hlist]
    simp only [List.length_cons, List.length_append, List.length_map,
      List.length_range, List.length_nil]
  · intro i
    exact dist0_ptoc _ _ (div_nonneg hR.le hcos.le)

/-- Witness for C1 at the spec's scenario bend (90° bend, 22.5° segments,
n = 4) and the casing outer layer radius 610. -/
theorem get_segment_points_structure_witness :
    (0 < bend225.segangle ∧ bend225.segangle ≤ bend225.bendangle ∧
      bend225.bendangle ≤ 90 ∧ bend225.bendangle = (4 : ℕ) * bend225.segangle ∧
      (0:ℝ) < 610) ∧
    (bend225.get_segment_points 610).length = 4 + 2 := by
  have h1 : 0 < bend225.segangle := by norm_num [bend225]
  have h2 : bend225.segangle ≤ bend225.bendangle := by norm_num [bend225]
  have h3 : bend225.bendangle ≤ 90 := by norm_num [bend225]
  have h4 : bend225.bendangle = (4 : ℕ) * bend225.segangle := by
    norm_num [bend225]
  have h5 : (0:ℝ) < 610 := by norm_num
  obtain ⟨-, hlen, -, -, -⟩ :=
    get_segment_points_structure bend225 4 610 h1 h2 h3 h4 h5
  exact ⟨⟨h1, h2, h3, h4, h5⟩, hlen⟩

/-- C4 (amended): for a bend with an even segment count `n = 2*m ≥ 2`
and a layer radius `R > 0`, the midpoint of the two middle internal
vertices of the generated point set (list indices `m` and `m + 1`) lies
exactly on the bend's angular bisector, at polar angle `bend_arc / 2`
and at distance exactly `R` from the origin — it is this chord midpoint,
not a vertex, that sits at the arc midpoint (the counterexample shows
the vertex form of the claim fails). -/
theorem even_segment_bisector_midpoint (b : PipeBend) (m : ℕ) (R : ℝ)
    (hs : 0 < b.segangle) (h90 : b.bendangle ≤ 90)
    (hn : b.bendangle = (2 * m : ℕ) * b.segangle) (hm : 1 ≤ m)
    (hR : 0 < R) :
    ∃ p q : Point,
      (b.get_segment_points R)[m]? = some p ∧
      (b.get_segment_points R)[m + 1]? = some q ∧
      Point.midpt p q = ptoc (b.bend_arc / 2) R origin ∧
      OnRay (b.bend_arc / 2) (Point.midpt p q) ∧
      (Point.midpt p q).dist0 = R := by
  obtain ⟨j, rfl⟩ : ∃ j, m = j + 1 := ⟨m - 1, (Nat.succ_pred_eq_of_pos hm).symm⟩
  have hsne : b.segangle ≠ 0 := ne_of_gt hs
  have hs90 : b.segangle ≤ 90 := by
    have h1 : b.segangle ≤ b.bendangle := by
      rw [hn]
      push_cast
      nlinarith
    linarith
  have hcos := cos_half_seg_pos b hs hs90
  have hlist := PipeBend.gsp_eq b (2 * (j + 1)) R hsne hn
  have hjlt : j < 2 * (j + 1) := by omega
  have hjlt2 : j + 1 < 2 * (j + 1) := by omega
  have hlen : j < ((List.range (2 * (j + 1))).map (fun (i : ℕ) =>
      ptoc (b.segment_angle * ((i : ℝ) + 0.5))
        (R / cos (b.segment_angle / 2)) origin)).length := by
    rw [List.length_map, List.length_range]
    omega
  have hlen2 : j + 1 < ((List.range (2 * (j + 1))).map (fun (i : ℕ) =>
      ptoc (b.segment_angle * ((i : ℝ) + 0.5))
        (R / cos (b.segment_angle / 2)) origin)).length := by
    rw [List.length_map, List.length_range]
    omega
  refine ⟨ptoc (b.segment_angle * ((j : ℝ) + 0.5))
      (R / cos (b.segment_angle / 2)) origin,
    ptoc (b.segment_angle * (((j + 1 : ℕ) : ℝ) + 0.5))
      (R / cos (b.segment_angle / 2)) origin, ?_, ?_, ?_⟩
  · rw [hlist, List.getElem?_cons_succ, List.getElem?_append, if_pos hlen,
      List.getElem?_map, List.getElem?_range hjlt]
    rfl
  · rw [hlist, List.getElem?_cons_succ, List.getElem?_append, if_pos hlen2,
      List.getElem?_map, List.getElem?_range hjlt2]
    rfl
  have harc : b.bend_arc / 2 = ((j : ℝ) + 1) * b.segment_angle := by
    have := bend_arc_eq_mul b (2 * (j + 1)) hn
    rw [this]
    push_cast
    ring
  have hE : R / cos (b.segment_angle / 2) * cos (b.segment_angle / 2) = R :=
    div_mul_cancel₀ R (ne_of_gt hcos)
  have hcc : cos (b.segment_angle * ((j : ℝ) + 0.5)) +
      cos (b.segment_angle * (((j + 1 : ℕ) : ℝ) + 0.5)) =
      2 * cos (((j : ℝ) + 1) * b.segment_angle) * cos (b.segment_angle / 2) := by
    rw [cos_add_cos]
    have e1 : (b.segment_angle * ((j : ℝ) + 0.5) +
        b.segment_angle * (((j + 1 : ℕ) : ℝ) + 0.5)) / 2 =
        ((j : ℝ) + 1) * b.segment_angle := by
      push_cast
      ring
    have e2 : (b.segment_angle * ((j : ℝ) + 0.5) -
        b.segment_angle * (((j + 1 : ℕ) : ℝ) + 0.5)) / 2 =
        -(b.segment_angle / 2) := by
      push_cast
      ring
    rw [e1, e2, cos_neg]
  have hss : sin (b.segment_angle * ((j : ℝ) + 0.5)) +
      sin (b.segment_angle * (((j + 1 : ℕ) : ℝ) + 0.5)) =
      2 * sin (((j : ℝ) + 1) * b.segment_angle) * cos (b.segment_angle / 2) := by
    have h2 := Real.two_mul_sin_mul_cos (((j : ℝ) + 1) * b.segment_angle)
      (b.segment_angle / 2)
    have e1 : ((j : ℝ) + 1) * b.segment_angle - b.segment_angle / 2 =
        b.segment_angle * ((j : ℝ) + 0.5) := by
      ring
    have e2 : ((j : ℝ) + 1) * b.segment_angle + b.segment_angle / 2 =
        b.segment_angle * (((j + 1 : ℕ) : ℝ) + 0.5) := by
      push_cast
      ring
    rw [e1, e2] at h2
    linarith [h2]
  have hmid : Point.midpt
      (ptoc (b.segment_angle * ((j : ℝ) + 0.5))
        (R / cos (b.segment_angle / 2)) origin)
      (ptoc (b.segment_angle * (((j + 1 : ℕ) : ℝ) + 0.5))
        (R / cos (b.segment_angle / 2)) origin) =
      ptoc (b.bend_arc / 2) R origin := by
    rw [harc]
    unfold Point.midpt ptoc origin
    ext
    · show (0 + cos (b.segment_angle * ((j : ℝ) + 0.5)) *
          (R / cos (b.segment_angle / 2)) +
        (0 + cos (b.segment_angle * (((j + 1 : ℕ) : ℝ) + 0.5)) *
          (R / cos (b.segment_angle / 2)))) / 2 =
        0 + cos (((j : ℝ) + 1) * b.segment_angle) * R
      linear_combination (R / cos (b.segment_angle / 2) / 2) * hcc +
        cos (((j : ℝ) + 1) * b.segment_angle) * hE
    · show (0 - sin (b.segment_angle * ((j : ℝ) + 0.5)) *
          (R / cos (b.segment_angle / 2)) +
        (0 - sin (b.segment_angle * (((j + 1 : ℕ) : ℝ) + 0.5)) *
          (R / cos (b.segment_angle / 2)))) / 2 =
        0 - sin (((j : ℝ) + 1) * b.segment_angle) * R
      linear_combination (-(R / cos (b.segment_angle / 2)) / 2) * hss -
        sin (((j : ℝ) + 1) * b.segment_angle) * hE
  refine ⟨hmid, ?_, ?_⟩
  · rw [hmid]
    exact ⟨R, hR, rfl⟩
  · rw [hmid]
    exact dist0_ptoc _ _ hR.le

/-- Witness for C4's amended statement at the even bend `bend45`
(n = 2, m = 1) and radius `R = 610`. -/
theorem even_segment_bisector_midpoint_witness :
    (0 < bend45.segangle ∧ bend45.bendangle ≤ 90 ∧
      bend45.bendangle = (2 * 1 : ℕ) * bend45.segangle ∧ (0:ℝ) < 610) ∧
    ∃ p q : Point,
      (bend45.get_segment_points 610)[1]? = some p ∧
      (bend45.get_segment_points 610)[1 + 1]? = some q ∧
      Point.midpt p q = ptoc (bend45.bend_arc / 2) 610 origin ∧
      OnRay (bend45.bend_arc / 2) (Point.midpt p q) ∧
      (Point.midpt p q).dist0 = 610 := by
  have h1 : 0 < bend45.segangle := by norm_num [bend45]
  have h2 : bend45.bendangle ≤ 90 := by norm_num [bend45]
  have h3 : bend45.bendangle = (2 * 1 : ℕ) * bend45.segangle := by
    norm_num [bend45]
  have h4 : (0:ℝ) < 610 := by norm_num
  exact ⟨⟨h1, h2, h3, h4⟩,
    even_segment_bisector_midpoint bend45 1 610 h1 h2 h3 le_rfl h4⟩

/-- A `ptoc` point whose angle differs from `alpha` by a non-multiple of
`π` (witnessed by a nonvanishing sine) and whose radius is nonzero does
not lie on the ray at angle `alpha`. -/
theorem not_onRay_of (theta alpha r : ℝ) (hr : r ≠ 0)
    (hsin : sin (theta - alpha) ≠ 0) : ¬ OnRay alpha (ptoc theta r origin) :=
  fun h => (mul_ne_zero hr hsin) (onRay_sin_eq_zero h)

/-- No point generated by `get_segment_points` for the even bend `bend45`
lies on the ray at angle `π/4` (the bend's angular bisector), whatever
nonzero radius the layer has. -/
theorem bend45_gsp_off_bisector (r : ℝ) (hr : r ≠ 0) :
    ∀ p ∈ bend45.get_segment_points r, ¬ OnRay (π / 4) p := by
  have hsne : bend45.segangle ≠ 0 := by norm_num [bend45]
  have hn2 : bend45.bendangle = (2 : ℕ) * bend45.segangle := by
    norm_num [bend45]
  have hcos : 0 < cos (bend45.segment_angle / 2) :=
    cos_half_seg_pos bend45 (by norm_num [bend45]) (by norm_num [bend45])
  have hrad : r / cos (bend45.segment_angle / 2) ≠ 0 :=
    div_ne_zero hr (ne_of_gt hcos)
  have hπ := pi_pos
  have hs8 : (0:ℝ) < sin (π / 8) :=
    sin_pos_of_pos_of_lt_pi (by positivity) (by linarith)
  have hs4 : (0:ℝ) < sin (π / 4) :=
    sin_pos_of_pos_of_lt_pi (by positivity) (by linarith)
  intro p hp
  rw [PipeBend.gsp_eq bend45 2 r hsne hn2] at hp
  simp only [List.mem_cons, List.mem_append, List.mem_map,
    List.mem_range, List.mem_singleton, List.not_mem_nil, or_false] at hp
  rcases hp with rfl | ⟨i, hi, rfl⟩ | rfl
  · refine not_onRay_of 0 (π / 4) r hr ?_
    rw [zero_sub, sin_neg, neg_ne_zero]
    exact ne_of_gt hs4
  · interval_cases i
    · have hθ : bend45.segment_angle * (((0 : ℕ) : ℝ) + 0.5) = π / 8 := by
        simp [PipeBend.segment_angle, radians, bend45]
        ring
      rw [hθ]
      refine not_onRay_of (π / 8) (π / 4) _ hrad ?_
      rw [show π / 8 - π / 4 = -(π / 8) by ring, sin_neg, neg_ne_zero]
      exact ne_of_gt hs8
    · have hθ : bend45.segment_angle * (((1 : ℕ) : ℝ) + 0.5) = 3 * π / 8 := by
        simp [PipeBend.segment_angle, radians, bend45]
        ring
      rw [hθ]
      refine not_onRay_of (3 * π / 8) (π / 4) _ hrad ?_
      rw [show 3 * π / 8 - π / 4 = π / 8 by ring]
      exact ne_of_gt hs8
  · have hθ : bend45.bend_arc = π / 2 := by
      simp [PipeBend.bend_arc, radians, bend45]
      ring
    rw [hθ]
    refine not_onRay_of (π / 2) (π / 4) r hr ?_
    rw [show π / 2 - π / 4 = π / 4 by ring]
    exact ne_of_gt hs4

/-- C4 (counterexample): the bend `bend45` is a valid bend spec with an
even segment count (2), yet none of its stored segment points — any
layer, outer or inner boundary, or the centerline — lies on the bend's
angular bisector, so its point set contains no vertex at the arc
midpoint. -/
theorem even_bend_no_bisector_vertex :
    bend45.bendangle = (2 : ℕ) * bend45.segangle ∧
    bend45.num_segments = 2 ∧ (2 : ℤ) % 2 = 0 ∧
    ¬ ∃ p ∈ bend45.allSegPoints, OnRay (bend45.bend_arc / 2) p := by
  have hsne : bend45.segangle ≠ 0 := by norm_num [bend45]
  have hn2 : bend45.bendangle = (2 : ℕ) * bend45.segangle := by
    norm_num [bend45]
  have hnum : bend45.num_segments = 2 := by
    have := PipeBend.num_segments_eq bend45 2 hsne hn2
    simpa using this
  have harc : bend45.bend_arc / 2 = π / 4 := by
    simp [PipeBend.bend_arc, radians, bend45]
    ring
  refine ⟨hn2, hnum, by norm_num, ?_⟩
  rintro ⟨p, hp, hray⟩
  rw [harc] at hray
  unfold PipeBend.allSegPoints PipeBend.pc_pts_out PipeBend.pc_pts_in
    PipeBend.pc_pts_ctr at hp
  simp only [List.mem_append, List.mem_reverse] at hp
  rcases hp with ((((((((h | h) | h) | h) | h) | h) | h) | h) | h)
  · exact bend45_gsp_off_bisector _ (by norm_num [PipeBend.outer_radii,
      Comp.rkey, bend45]) p h hray
  · exact bend45_gsp_off_bisector _ (by norm_num [PipeBend.outer_radii,
      Comp.rkey, bend45]) p h hray
  · exact bend45_gsp_off_bisector _ (by norm_num [PipeBend.outer_radii,
      Comp.rkey, bend45]) p h hray
  · exact bend45_gsp_off_bisector _ (by norm_num [PipeBend.outer_radii,
      Comp.rkey, bend45]) p h hray
  · exact bend45_gsp_off_bisector _ (by norm_num [PipeBend.inner_radii,
      Comp.rkey, bend45]) p h hray
  · exact bend45_gsp_off_bisector _ (by norm_num [PipeBend.inner_radii,
      Comp.rkey, bend45]) p h hray
  · exact bend45_gsp_off_bisector _ (by norm_num [PipeBend.inner_radii,
      Comp.rkey, bend45]) p h hray
  · exact bend45_gsp_off_bisector _ (by norm_num [PipeBend.inner_radii,
      Comp.rkey, bend45]) p h hray
  · exact bend45_gsp_off_bisector _ (by norm_num [PipeBend.radii_nom,
      bend45]) p h hray

/-- `pyRound` is the identity on integers. -/
theorem pyRound_intCast (n : ℤ) : pyRound (n : ℝ) = n := by
  unfold pyRound
  rw [if_neg, round_intCast]
  rw [Int.fract_intCast]
  norm_num

/-- `pyRound 100.1 = 100` (the rounded value of `1.001 * 100`). -/
theorem pyRound_100_1 : pyRound (100.1 : ℝ) = 100 := by
  have hfl : ⌊(100.1 : ℝ)⌋ = 100 := Int.floor_eq_iff.mpr (by norm_num)
  unfold pyRound
  rw [if_neg]
  · rw [round_eq]
    exact Int.floor_eq_iff.mpr (by norm_num)
  · unfold Int.fract
    rw [hfl]
    norm_num

/-- C6 (counterexample): the bend `bend1001` (90° bend, 1.001° segment
angle) satisfies the claim's preconditions — `0 < segangle ≤ bendangle ≤ 90`
and `round(bendangle*100) % round(segangle*100) == 0` — yet its stored
segment count is `89 = ⌊90 / 1.001⌋`, which differs from the real ratio
`90 / 1.001`, so the count does not equal `bendangle / segangle` and that
ratio is not an integer. -/
theorem segment_count_divisibility_cex :
    0 < bend1001.segangle ∧ bend1001.segangle ≤ bend1001.bendangle ∧
    bend1001.bendangle ≤ 90 ∧
    pyRound (bend1001.bendangle * 100) % pyRound (bend1001.segangle * 100) = 0 ∧
    bend1001.num_segments = 89 ∧
    ((bend1001.num_segments : ℝ) ≠ bend1001.bendangle / bend1001.segangle) := by
  have h1 : 0 < bend1001.segangle := by norm_num [bend1001]
  have h2 : bend1001.segangle ≤ bend1001.bendangle := by norm_num [bend1001]
  have h3 : bend1001.bendangle ≤ 90 := by norm_num [bend1001]
  have h4 : pyRound (bend1001.bendangle * 100) %
      pyRound (bend1001.segangle * 100) = 0 := by
    have e1 : bend1001.bendangle * 100 = ((9000 : ℤ) : ℝ) := by
      norm_num [bend1001]
    have e2 : bend1001.segangle * 100 = (100.1 : ℝ) := by
      norm_num [bend1001]
    rw [e1, e2, pyRound_intCast, pyRound_100_1]
    decide
  have hnum : bend1001.num_segments = 89 := by
    unfold PipeBend.num_segments PipeBend.bend_arc PipeBend.segment_angle
    rw [radians_div _ _ (ne_of_gt h1)]
    unfold pyInt
    rw [if_pos (div_nonneg (by norm_num [bend1001]) h1.le)]
    have : bend1001.bendangle / bend1001.segangle = (90 : ℝ) / 1.001 := by
      norm_num [bend1001]
    rw [this]
    exact Int.floor_eq_iff.mpr (by norm_num)
  refine ⟨h1, h2, h3, h4, hnum, ?_⟩
  rw [hnum]
  have : bend1001.bendangle / bend1001.segangle = (90 : ℝ) / 1.001 := by
    norm_num [bend1001]
  rw [this]
  norm_num

/-- C6 (amended): for a bend with `0 < segangle ≤ bendangle ≤ 90`
satisfying the divisibility check `round(b*100) % round(s*100) == 0`,
the stored segment count is `⌊bendangle / segangle⌋`, is at least 1, and
equals the exact ratio whenever the segment angle divides the bend angle
exactly. -/
theorem segment_count_floor (b : PipeBend)
    (hs : 0 < b.segangle) (hsb : b.segangle ≤ b.bendangle)
    (h90 : b.bendangle ≤ 90)
    (hdiv : pyRound (b.bendangle * 100) % pyRound (b.segangle * 100) = 0) :
    b.num_segments = ⌊b.bendangle / b.segangle⌋ ∧
    1 ≤ b.num_segments ∧
    ∀ n : ℕ, b.bendangle = n * b.segangle → b.num_segments = n := by
  have hsne := ne_of_gt hs
  have hq : b.bend_arc / b.segment_angle = b.bendangle / b.segangle := by
    unfold PipeBend.bend_arc PipeBend.segment_angle
    exact radians_div _ _ hsne
  have hnn : (0:ℝ) ≤ b.bendangle / b.segangle :=
    div_nonneg (by linarith) hs.le
  have h1 : b.num_segments = ⌊b.bendangle / b.segangle⌋ := by
    unfold PipeBend.num_segments pyInt
    rw [hq, if_pos hnn]
  refine ⟨h1, ?_, ?_⟩
  · rw [h1, Int.le_floor]
    push_cast
    rw [le_div_iff hs]
    linarith
  · intro n hn
    exact PipeBend.num_segments_eq b n hsne hn

/-- Witness for C6's amended statement at the scenario bend
(90° / 22.5°, count 4). -/
theorem segment_count_floor_witness :
    (0 < bend225.segangle ∧ bend225.segangle ≤ bend225.bendangle ∧
      bend225.bendangle ≤ 90 ∧
      pyRound (bend225.bendangle * 100) % pyRound (bend225.segangle * 100) = 0) ∧
    bend225.num_segments = ⌊bend225.bendangle / bend225.segangle⌋ ∧
    1 ≤ bend225.num_segments := by
  have h1 : 0 < bend225.segangle := by norm_num [bend225]
  have h2 : bend225.segangle ≤ bend225.bendangle := by norm_num [bend225]
  have h3 : bend225.bendangle ≤ 90 := by norm_num [bend225]
  have h4 : pyRound (bend225.bendangle * 100) %
      pyRound (bend225.segangle * 100) = 0 := by
    have e1 : bend225.bendangle * 100 = ((9000 : ℤ) : ℝ) := by
      norm_num [bend225]
    have e2 : bend225.segangle * 100 = ((2250 : ℤ) : ℝ) := by
      norm_num [bend225]
    rw [e1, e2, pyRound_intCast, pyRound_intCast]
    decide
  obtain ⟨ha, hb, -⟩ := segment_count_floor bend225 h1 h2 h3 h4
  exact ⟨⟨h1, h2, h3, h4⟩, ha, hb⟩

/-- Recovering the polar angle of a `ptoc` point by `atan2(-y, x)` gives
back the angle, provided the angle already lies in `atan2`'s range
`(-π, π]`. -/
theorem atan2_ptoc (θ r : ℝ) (hr : 0 < r) (hθ : θ ∈ Set.Ioc (-π) π) :
    atan2 (-(ptoc θ r origin).y) (ptoc θ r origin).x = θ := by
  unfold atan2 ptoc origin
  have hc : (⟨0 + cos θ * r, -(0 - sin θ * r)⟩ : ℂ) =
      (r : ℂ) * (Complex.cos θ + Complex.sin θ * Complex.I) := by
    simp [Complex.ext_iff, Complex.cos_ofReal_re, Complex.sin_ofReal_re]
    constructor <;> ring
  rw [hc]
  rw [show ((r : ℂ) * (Complex.cos θ + Complex.sin θ * Complex.I)) =
      (r : ℝ) * (Complex.cos θ + Complex.sin θ * Complex.I) from rfl]
  rw [Complex.arg_real_mul _ hr, Complex.arg_cos_add_sin_mul_I hθ]

/-- C9 (counterexample): at `theta = 3π/2`, `r = 1` — inside the claim's
stated domain `theta ∈ [0, 2π)`, `r > 0` — the recovery `atan2(-y, x)`
returns `-π/2`, not `3π/2`: the difference is `2π`, not a floating-point
tolerance, so the round trip does not reproduce the input angle. -/
theorem ptoc_roundtrip_cex :
    0 ≤ 3 * π / 2 ∧ 3 * π / 2 < 2 * π ∧ (0:ℝ) < 1 ∧
    atan2 (-(ptoc (3 * π / 2) 1 origin).y) (ptoc (3 * π / 2) 1 origin).x
      = -(π / 2) ∧
    atan2 (-(ptoc (3 * π / 2) 1 origin).y) (ptoc (3 * π / 2) 1 origin).x
      ≠ 3 * π / 2 := by
  have hπ := pi_pos
  have hc : cos (3 * π / 2) = 0 := by
    rw [show 3 * π / 2 = π + π / 2 by ring, Real.cos_add]
    simp
  have hs : sin (3 * π / 2) = -1 := by
    rw [show 3 * π / 2 = π + π / 2 by ring, Real.sin_add]
    simp
  have hval : atan2 (-(ptoc (3 * π / 2) 1 origin).y)
      (ptoc (3 * π / 2) 1 origin).x = -(π / 2) := by
    unfold atan2 ptoc origin
    rw [hc, hs]
    have he : (⟨0 + 0 * 1, -(0 - -1 * 1)⟩ : ℂ) = -Complex.I := by
      simp [Complex.ext_iff]
    rw [he, Complex.arg_neg_I]
  refine ⟨by positivity, by linarith, one_pos, hval, ?_⟩
  rw [hval]
  intro h
  linarith

/-- C9 (amended): for `theta ∈ [0, 2π)` and `r > 0`, applying `ptoc` and
recovering polar coordinates via `atan2(-y, x)` and `hypot(x, y)`
reproduces the radius exactly, and reproduces the angle only modulo
`2π`: exactly for `theta ∈ [0, π]`, and as `theta - 2π` for
`theta ∈ (π, 2π)`. -/
theorem ptoc_roundtrip (θ r : ℝ) (h0 : 0 ≤ θ) (h2 : θ < 2 * π)
    (hr : 0 < r) :
    (ptoc θ r origin).dist0 = r ∧
    (θ ≤ π → atan2 (-(ptoc θ r origin).y) (ptoc θ r origin).x = θ) ∧
    (π < θ → atan2 (-(ptoc θ r origin).y) (ptoc θ r origin).x = θ - 2 * π) := by
  have hπ := pi_pos
  refine ⟨dist0_ptoc θ r hr.le, ?_, ?_⟩
  · intro hle
    exact atan2_ptoc θ r hr (Set.mem_Ioc.mpr ⟨by linarith, hle⟩)
  · intro hgt
    have hpt : ptoc θ r origin = ptoc (θ - 2 * π) r origin := by
      unfold ptoc
      rw [Real.cos_sub_two_pi, Real.sin_sub_two_pi]
    rw [hpt]
    exact atan2_ptoc (θ - 2 * π) r hr
      (Set.mem_Ioc.mpr ⟨by linarith, by linarith⟩)

/-- Witness for C9's amended statement at `theta = π/2`, `r = 2`. -/
theorem ptoc_roundtrip_witness :
    (0 ≤ π / 2 ∧ π / 2 < 2 * π ∧ (0:ℝ) < 2) ∧
    (ptoc (π / 2) 2 origin).dist0 = 2 ∧
    (π / 2 ≤ π →
      atan2 (-(ptoc (π / 2) 2 origin).y) (ptoc (π / 2) 2 origin).x = π / 2) := by
  have hπ := pi_pos
  have h0 : (0:ℝ) ≤ π / 2 := by linarith
  have h2 : π / 2 < 2 * π := by linarith
  have hr : (0:ℝ) < 2 := by norm_num
  obtain ⟨hd, ha, -⟩ := ptoc_roundtrip (π / 2) 2 h0 h2 hr
  exact ⟨⟨h0, h2, hr⟩, hd, ha⟩

/-- The minimum of four values, grouped per axis, is below each candidate
and equal to one of them. -/
theorem min4_spec (a b c d : ℝ) :
    min (min a b) (min c d) ≤ a ∧ min (min a b) (min c d) ≤ b ∧
    min (min a b) (min c d) ≤ c ∧ min (min a b) (min c d) ≤ d ∧
    (min (min a b) (min c d) = a ∨ min (min a b) (min c d) = b ∨
     min (min a b) (min c d) = c ∨ min (min a b) (min c d) = d) := by
  refine ⟨le_trans (min_le_left _ _) (min_le_left _ _),
    le_trans (min_le_left _ _) (min_le_right _ _),
    le_trans (min_le_right _ _) (min_le_left _ _),
    le_trans (min_le_right _ _) (min_le_right _ _), ?_⟩
  rcases min_choice (min a b) (min c d) with h | h
  · rcases min_choice a b with h2 | h2
    · exact Or.inl (h.trans h2)
    · exact Or.inr (Or.inl (h.trans h2))
  · rcases min_choice c d with h2 | h2
    · exact Or.inr (Or.inr (Or.inl (h.trans h2)))
    · exact Or.inr (Or.inr (Or.inr (h.trans h2)))

/-- C2: the bend scale solver computes, for the x axis, a candidate
`page_w / bfr` limited by the flange's outer bounding circle and a
candidate `(page_w - dm_w) / ang_w` limited by the angular extent of the
bend with the radial dimension-line/label allowance `dm_w` subtracted
from the page width, and for the y axis the analogous two candidates;
the solved scale equals the minimum over both axes of the minimum of
that axis's two candidates, is bounded by each of the four candidates,
and coincides with one of them. -/
theorem bend_set_scale_candidates (b : PipeBend) (ddm rdm page_w page_h : ℝ) :
    b.set_scale ddm rdm page_w page_h =
      min
        (min (page_w / b.outer_radii RKey.fo)
          ((page_w - cos (π / 2 - b.bend_arc) * (rdm * 4)) /
            (b.outer_radii RKey.fo - cos b.bend_arc * b.inner_radii RKey.co)))
        (min (page_h /
            (sin b.bend_arc * b.outer_radii RKey.fo + b.toPipe.p_rad DKey.fo))
          ((page_h - sin (π / 2 - b.bend_arc) * (rdm * 4)) /
            (sin b.bend_arc * b.outer_radii RKey.co + b.toPipe.p_rad DKey.fo))) ∧
    b.set_scale ddm rdm page_w page_h ≤ page_w / b.outer_radii RKey.fo ∧
    b.set_scale ddm rdm page_w page_h ≤
      (page_w - cos (π / 2 - b.bend_arc) * (rdm * 4)) /
        (b.outer_radii RKey.fo - cos b.bend_arc * b.inner_radii RKey.co) ∧
    b.set_scale ddm rdm page_w page_h ≤
      page_h / (sin b.bend_arc * b.outer_radii RKey.fo + b.toPipe.p_rad DKey.fo) ∧
    b.set_scale ddm rdm page_w page_h ≤
      (page_h - sin (π / 2 - b.bend_arc) * (rdm * 4)) /
        (sin b.bend_arc * b.outer_radii RKey.co + b.toPipe.p_rad DKey.fo) ∧
    (b.set_scale ddm rdm page_w page_h = page_w / b.outer_radii RKey.fo ∨
     b.set_scale ddm rdm page_w page_h =
       (page_w - cos (π / 2 - b.bend_arc) * (rdm * 4)) /
         (b.outer_radii RKey.fo - cos b.bend_arc * b.inner_radii RKey.co) ∨
     b.set_scale ddm rdm page_w page_h =
       page_h / (sin b.bend_arc * b.outer_radii RKey.fo + b.toPipe.p_rad DKey.fo) ∨
     b.set_scale ddm rdm page_w page_h =
       (page_h - sin (π / 2 - b.bend_arc) * (rdm * 4)) /
         (sin b.bend_arc * b.outer_radii RKey.co + b.toPipe.p_rad DKey.fo)) := by
  obtain ⟨h1, h2, h3, h4, h5⟩ := min4_spec
    (page_w / b.outer_radii RKey.fo)
    ((page_w - cos (π / 2 - b.bend_arc) * (rdm * 4)) /
      (b.outer_radii RKey.fo - cos b.bend_arc * b.inner_radii RKey.co))
    (page_h / (sin b.bend_arc * b.outer_radii RKey.fo + b.toPipe.p_rad DKey.fo))
    ((page_h - sin (π / 2 - b.bend_arc) * (rdm * 4)) /
      (sin b.bend_arc * b.outer_radii RKey.co + b.toPipe.p_rad DKey.fo))
  exact ⟨rfl, h1, h2, h3, h4, h5⟩

/-- C5: the straight scale solver returns the minimum of exactly two
candidates — a width candidate `(page_w - ldm*3) / flangeDiameter` and a
height candidate `(page_h - rdm*4) / (length + flangeRadius)` — and in
the spec's scenario (length 3000, 200PN16 flange, 500×700 page, any
nonnegative text metrics) the solved scale is at most
`700 / (3000 + 170)` and at most `500 / 340`. -/
theorem straight_set_scale_candidates :
    (∀ (s : PipeStraight) (rdm ldm page_w page_h : ℝ),
      s.set_scale rdm ldm page_w page_h =
        min ((page_w - ldm * 3) / s.toPipe.diameters DKey.fo)
          ((page_h - rdm * 4) / (s.length + s.toPipe.p_rad DKey.fo)) ∧
      s.set_scale rdm ldm page_w page_h ≤
        (page_w - ldm * 3) / s.toPipe.diameters DKey.fo ∧
      s.set_scale rdm ldm page_w page_h ≤
        (page_h - rdm * 4) / (s.length + s.toPipe.p_rad DKey.fo) ∧
      (s.set_scale rdm ldm page_w page_h =
          (page_w - ldm * 3) / s.toPipe.diameters DKey.fo ∨
        s.set_scale rdm ldm page_w page_h =
          (page_h - rdm * 4) / (s.length + s.toPipe.p_rad DKey.fo))) ∧
    (∀ s : PipeStraight,
      PipeStraight.make 3000 220 200 180 160 "200PN16" = some s →
      ∀ rdm ldm : ℝ, 0 ≤ rdm → 0 ≤ ldm →
        s.set_scale rdm ldm 500 700 ≤ 700 / (3000 + 170) ∧
        s.set_scale rdm ldm 500 700 ≤ 500 / 340) := by
  have hgen : ∀ (s : PipeStraight) (rdm ldm page_w page_h : ℝ),
      s.set_scale rdm ldm page_w page_h =
        min ((page_w - ldm * 3) / s.toPipe.diameters DKey.fo)
          ((page_h - rdm * 4) / (s.length + s.toPipe.p_rad DKey.fo)) := by
    intro s rdm ldm page_w page_h
    unfold PipeStraight.set_scale PipeStraight.len_dim_line_length_offset_m
      PipeStraight.len_dim_line_length_width_m
    norm_num
  constructor
  · intro s rdm ldm page_w page_h
    refine ⟨hgen s rdm ldm page_w page_h, ?_, ?_, ?_⟩
    · rw [hgen]
      exact min_le_left _ _
    · rw [hgen]
      exact min_le_right _ _
    · rw [hgen]
      exact min_choice _ _
  · intro s hmk rdm ldm hr hl
    have hsval : s = straight3000 := by
      have hmk2 : PipeStraight.make 3000 220 200 180 160 "200PN16" =
          some straight3000 := rfl
      rw [hmk2] at hmk
      exact (Option.some.inj hmk).symm
    subst hsval
    have heq := hgen straight3000 rdm ldm 500 700
    have hproj : straight3000.toPipe.diameters DKey.fo = 340 := by
      simp [straight3000, Pipe.diameters, f200]
    have hproj2 : straight3000.toPipe.p_rad DKey.fo = 170 := by
      simp [straight3000, Pipe.p_rad, f200]
      norm_num
    have hproj3 : straight3000.length = 3000 := rfl
    rw [hproj, hproj2, hproj3] at heq
    rw [heq]
    constructor
    · refine le_trans (min_le_right _ _) ?_
      rw [show (3000:ℝ) + 170 = 3170 by norm_num]
      gcongr
      linarith
    · refine le_trans (min_le_left _ _) ?_
      gcongr
      linarith

/-- Witness for C5's scenario part at the concrete straight model and
text metrics `rdm = 6`, `ldm = 20`. -/
theorem straight_set_scale_candidates_witness :
    PipeStraight.make 3000 220 200 180 160 "200PN16" = some straight3000 ∧
    (0:ℝ) ≤ 6 ∧ (0:ℝ) ≤ 20 ∧
    straight3000.set_scale 6 20 500 700 ≤ 700 / (3000 + 170) ∧
    straight3000.set_scale 6 20 500 700 ≤ 500 / 340 := by
  have hmk : PipeStraight.make 3000 220 200 180 160 "200PN16" =
      some straight3000 := rfl
  obtain ⟨hb1, hb2⟩ := straight_set_scale_candidates.2 _ hmk 6 20
    (by norm_num) (by norm_num)
  exact ⟨hmk, by norm_num, by norm_num, hb1, hb2⟩

/-- C3: with the component spec and all text metrics held fixed,
enlarging the available page width or height never decreases the scale
solved by either the bend or the straight solver. -/
theorem set_scale_monotone (b : PipeBend) (st : PipeStraight)
    (hnr : 0 < b.nomrad) (hco : 0 < b.casingod)
    (hfo : 0 < b.flange.flange_diameter)
    (hba : 0 < b.bendangle) (hba90 : b.bendangle ≤ 90)
    (hsfo : 0 < st.flange.flange_diameter) (hslen : 0 < st.length)
    (ddm rdm rdms ldms pw pw' ph ph' : ℝ) (hw : pw ≤ pw') (hh : ph ≤ ph') :
    b.set_scale ddm rdm pw ph ≤ b.set_scale ddm rdm pw' ph ∧
    b.set_scale ddm rdm pw ph ≤ b.set_scale ddm rdm pw ph' ∧
    st.set_scale rdms ldms pw ph ≤ st.set_scale rdms ldms pw' ph ∧
    st.set_scale rdms ldms pw ph ≤ st.set_scale rdms ldms pw ph' := by
  have hπ := pi_pos
  have hA0 : 0 < b.bend_arc := by
    unfold PipeBend.bend_arc radians
    exact div_pos (mul_pos hba hπ) (by norm_num)
  have hA90 : b.bend_arc ≤ π / 2 := by
    unfold PipeBend.bend_arc radians
    nlinarith [mul_nonneg (show (0:ℝ) ≤ 90 - b.bendangle by linarith) hπ.le]
  have hApi : b.bend_arc < π := by linarith
  have hsin : 0 < sin b.bend_arc := sin_pos_of_pos_of_lt_pi hA0 hApi
  have hcos0 : 0 ≤ cos b.bend_arc :=
    cos_nonneg_of_mem_Icc (Set.mem_Icc.mpr ⟨by linarith, hA90⟩)
  have hcos1 : cos b.bend_arc ≤ 1 := cos_le_one _
  have hbfr : 0 < b.outer_radii RKey.fo := by
    simp only [PipeBend.outer_radii]
    linarith
  have hangw : 0 < b.outer_radii RKey.fo -
      cos b.bend_arc * b.inner_radii RKey.co := by
    simp only [PipeBend.outer_radii, PipeBend.inner_radii]
    rcases le_or_lt (b.nomrad - b.casingod / 2) 0 with h | h
    · have hmn : cos b.bend_arc * (b.nomrad - b.casingod / 2) ≤ 0 :=
        mul_nonpos_iff.mpr (Or.inl ⟨hcos0, h⟩)
      linarith
    · have hmn : cos b.bend_arc * (b.nomrad - b.casingod / 2) ≤
          b.nomrad - b.casingod / 2 := by nlinarith
      linarith
  have hradh : 0 < sin b.bend_arc * b.outer_radii RKey.fo +
      b.toPipe.p_rad DKey.fo := by
    simp only [Pipe.p_rad]
    nlinarith [mul_pos hsin hbfr]
  have hangh : 0 < sin b.bend_arc * b.outer_radii RKey.co +
      b.toPipe.p_rad DKey.fo := by
    have hcro : 0 < b.outer_radii RKey.co := by
      simp only [PipeBend.outer_radii]
      linarith
    simp only [Pipe.p_rad]
    nlinarith [mul_pos hsin hcro]
  have hfld : 0 < st.toPipe.diameters DKey.fo := by
    simp only [Pipe.diameters]
    exact hsfo
  have hlenflr : 0 < st.length + st.toPipe.p_rad DKey.fo := by
    simp only [Pipe.p_rad]
    linarith
  refine ⟨?_, ?_, ?_, ?_⟩
  · unfold PipeBend.set_scale
    refine min_le_min (min_le_min ?_ ?_) le_rfl
    · exact (div_le_div_right hbfr).mpr hw
    · exact (div_le_div_right hangw).mpr (by linarith)
  · unfold PipeBend.set_scale
    refine min_le_min le_rfl (min_le_min ?_ ?_)
    · exact (div_le_div_right hradh).mpr hh
    · exact (div_le_div_right hangh).mpr (by linarith)
  · unfold PipeStraight.set_scale
    refine min_le_min ?_ le_rfl
    exact (div_le_div_right hfld).mpr (by linarith)
  · unfold PipeStraight.set_scale
    refine min_le_min le_rfl ?_
    exact (div_le_div_right hlenflr).mpr (by linarith)

/-- Witness for C3 at the scenario bend and straight, with page
rectangles 500×700 and 600×800. -/
theorem set_scale_monotone_witness :
    (0 < bend225.nomrad ∧ 0 < bend225.casingod ∧
      0 < bend225.flange.flange_diameter ∧ 0 < bend225.bendangle ∧
      bend225.bendangle ≤ 90 ∧ 0 < straight3000.flange.flange_diameter ∧
      0 < straight3000.length ∧ (500:ℝ) ≤ 600 ∧ (700:ℝ) ≤ 800) ∧
    bend225.set_scale 30 10 500 700 ≤ bend225.set_scale 30 10 600 700 ∧
    bend225.set_scale 30 10 500 700 ≤ bend225.set_scale 30 10 500 800 ∧
    straight3000.set_scale 6 20 500 700 ≤ straight3000.set_scale 6 20 600 700 ∧
    straight3000.set_scale 6 20 500 700 ≤ straight3000.set_scale 6 20 500 800 := by
  have h1 : 0 < bend225.nomrad := by norm_num [bend225]
  have h2 : 0 < bend225.casingod := by norm_num [bend225]
  have h3 : 0 < bend225.flange.flange_diameter := by norm_num [bend225, f200]
  have h4 : 0 < bend225.bendangle := by norm_num [bend225]
  have h5 : bend225.bendangle ≤ 90 := by norm_num [bend225]
  have h6 : 0 < straight3000.flange.flange_diameter := by
    norm_num [straight3000, f200]
  have h7 : 0 < straight3000.length := by norm_num [straight3000]
  have h8 : (500:ℝ) ≤ 600 := by norm_num
  have h9 : (700:ℝ) ≤ 800 := by norm_num
  obtain ⟨m1, m2, m3, m4⟩ := set_scale_monotone bend225 straight3000
    h1 h2 h3 h4 h5 h6 h7 30 10 6 20 500 600 700 800 h8 h9
  exact ⟨⟨h1, h2, h3, h4, h5, h6, h7, h8, h9⟩, m1, m2, m3, m4⟩

end JobCalc
